import Mathlib

/-!
Verification development for the fireblocks-xrp-sdk signing core.

This file gives a shallow embedding, in Lean 4, of the parts of the
repository that the specification's claims are about:

* the DER signature encoder `SigningService.toDER`
  (src/services/SigningService.ts, lines 124-182);
* the two-phase signing protocol `SigningService.sign` /
  `SigningService.getSignedTransaction` (same file, lines 61-119 and
  274-367), with its in-memory map of prepared transactions;
* the per-account resource pool `SdkManager.getSdk` / `releaseSdk` /
  `removeOldestIdleSdk` / `cleanupIdleSdks`
  (src/pool/SdkManager.ts, lines 49-197).

JavaScript-specific behaviour is modelled explicitly where it matters:

* `Buffer.from(str, "hex")` never throws; it decodes complete valid
  hex pairs from the front of the string and silently stops at the
  first invalid or incomplete pair (`hexBytesJs`);
* truthiness: an absent or empty-string `TxnSignature` is falsy, an
  array-valued `Signers` field is always truthy (even when empty);
* JavaScript `Map` objects are modelled as association lists with
  unique keys, insertion-ordered (`alookup` / `aset` / `aerase`);
* a `while` loop that never exits is modelled by returning `none`
  (`JsOutcome.diverges` at the service level).

Timestamps (`Date.now()`, `new Date()`) are modelled as naturals that
the operations receive as explicit `now` parameters.
-/

namespace XrpSdk

/-! ## JavaScript-style hex encoding and decoding -/

/-- Numeric value of one hex digit, accepting both cases (as Node's
hex decoder does).  Stated over code points: 48-57 are `0`-`9`,
97-102 are `a`-`f`, 65-70 are `A`-`F`. -/
def hexDigitVal (c : Char) : Option Nat :=
  if 48 ≤ c.toNat ∧ c.toNat ≤ 57 then some (c.toNat - 48)
  else if 97 ≤ c.toNat ∧ c.toNat ≤ 102 then some (c.toNat - 87)
  else if 65 ≤ c.toNat ∧ c.toNat ≤ 70 then some (c.toNat - 55)
  else none

/-- Node `Buffer.from(str, "hex")` semantics on a character list:
decode complete valid pairs from the front, stop silently at the first
invalid or incomplete pair.  Never fails. -/
def hexBytesJsAux : List Char → List Nat
  | c1 :: c2 :: rest =>
    match hexDigitVal c1, hexDigitVal c2 with
    | some h, some l => (16 * h + l) :: hexBytesJsAux rest
    | _, _ => []
  | _ => []

/-- `Buffer.from(s, "hex")` on a string. -/
def hexBytesJs (s : String) : List Nat := hexBytesJsAux s.toList

/-- Uppercase hex digit for a value below 16 (as produced by
`Buffer.prototype.toString("hex").toUpperCase()` in the source). -/
def toHexUpper (n : Nat) : Char :=
  if n < 10 then Char.ofNat (48 + n) else Char.ofNat (55 + n)

/-- Uppercase hex rendering of a byte list. -/
def hexEncodeUpper (bs : List Nat) : String :=
  ⟨bs.flatMap fun b => [toHexUpper (b / 16), toHexUpper (b % 16)]⟩

/-- A string is fully-valid hex: even length, all hex digits.  On such
strings `hexBytesJs` decodes the whole string. -/
def validHexAux : List Char → Bool
  | [] => true
  | c1 :: c2 :: rest =>
    (hexDigitVal c1).isSome && (hexDigitVal c2).isSome && validHexAux rest
  | _ :: [] => false

/-- Validity of a hex string (see `validHexAux`). -/
def validHex (s : String) : Bool := validHexAux s.toList

/-! ## The DER encoder (`SigningService.toDER`, lines 124-182)

The source is translated operation by operation.  `rmPadding` and
`constructLength` are the inner helper closures; the unguarded
`while (!s[0] && !(s[1] & 0x80)) s = s.slice(1)` loop (lines 163-165)
is `trimS`, which returns `none` exactly when the JavaScript loop
never terminates (the list is exhausted while the loop condition still
holds). -/

/-- `rmPadding` (lines 126-135): drop leading bytes while the current
byte is zero, the next byte's high bit is clear, and at least two
bytes remain (`i < len` with `len = buf.length - 1`). -/
def rmPadding : List Nat → List Nat
  | [] => []
  | [a] => [a]
  | a :: b :: rest =>
    if a = 0 ∧ b &&& 0x80 = 0 then rmPadding (b :: rest) else a :: b :: rest

/-- The `while (!s[0] && !(s[1] & 0x80)) s = s.slice(1)` loop of lines
163-165.  JavaScript semantics: `s[0]` and `s[1]` read `undefined`
(falsy, and `undefined & 0x80 = 0`) past the end of the array, so once
the array is empty the condition stays true and the loop never exits;
that case is `none`. -/
def trimS : List Nat → Option (List Nat)
  | [] => none
  | a :: rest =>
    if a ≠ 0 then some (a :: rest)
    else
      match rest with
      | b :: _ => if b &&& 0x80 ≠ 0 then some (a :: rest) else trimS rest
      | [] => trimS rest

/-- `constructLength` (lines 137-152).  Short form for lengths below
0x80; otherwise long form with `octets = 1 + (log2 len >>> 3)` length
bytes.  The JavaScript computes the truncated base-2 logarithm with
floating-point `Math.log`; `Nat.log2` agrees with it on the list
lengths any caller here can produce.  The final `arr.push(len)`
pushes the unmasked length; `Buffer.from` later reduces every entry
mod 256 (see `toDERbytes`). -/
def constructLength (arr : List Nat) (len : Nat) : List Nat :=
  if len < 0x80 then arr ++ [len]
  else
    let octets := 1 + Nat.log2 len / 8
    arr ++ [octets ||| 0x80]
      ++ ((List.range (octets - 1)).reverse.map fun i => (len >>> ((i + 1) * 8)) &&& 0xff)
      ++ [len]

/-- Sign-bit padding (lines 157-158): prefix a zero byte when the
leading byte has its high bit set; on an empty array `r[0]` is
`undefined` and `undefined & 0x80 = 0`, so nothing is prefixed. -/
def padHigh (bs : List Nat) : List Nat :=
  if bs.headD 0 &&& 0x80 ≠ 0 then 0 :: bs else bs

/-- Byte-level body of `toDER` after both components have been parsed
from hex, padded and minimised (lines 167-173), with the trailing
`Buffer.from` byte masking applied. -/
def toDERbytes (r s : List Nat) : List Nat :=
  let derBytes := constructLength [0x02] r.length ++ r
  let derBytes := derBytes ++ [0x02]
  let derBytes := constructLength derBytes s.length
  let backHalf := derBytes ++ s
  ((constructLength [0x30] backHalf.length ++ backHalf).map (· % 256))

/-- `SigningService.toDER` (lines 124-182).  `none` models the
non-terminating `while` loop of lines 163-165; every other path
returns the uppercase hex string of line 175.  Note that no path
raises the `DEREncodingFailed` error of lines 176-181: Node's hex
decoding never throws, it silently truncates. -/
def toDER (rHex sHex : String) : Option String :=
  let r0 := hexBytesJs rHex
  let s0 := hexBytesJs sHex
  let r1 := padHigh r0
  let s1 := padHigh s0
  let r2 := rmPadding r1
  let s2 := rmPadding s1
  match trimS s2 with
  | none => none
  | some s3 => some (hexEncodeUpper (toDERbytes r2 s3))

/-- The canonical (sign-bit padded, minimal-length) form of the `r`
component, exactly the operations the source applies to it. -/
def canonR (bs : List Nat) : List Nat := rmPadding (padHigh bs)

/-- The canonical form of the `s` component: the `r` pipeline followed
by the extra trimming loop.  `none` when the loop diverges (the
component is all zero bytes or empty). -/
def canonS (bs : List Nat) : Option (List Nat) := trimS (rmPadding (padHigh bs))

/-! ## A DER tag-length-value decoder

The repository never decodes its own DER output; the spec (§4.1, §8)
describes the output as "a nested length-prefixed structure: an outer
container tag, total length, two inner tagged-length-value fields",
and asks that decoding the encoded form recover the two components.
`parseLen` / `parseIntTLV` / `derDecode` parse exactly that structure
(short-form and long-form lengths) and are used only to state that
round-trip property. -/

/-- Parse a DER length: short form below 0x80, otherwise the low
seven bits give the count of big-endian length bytes. -/
def parseLen : List Nat → Option (Nat × List Nat)
  | [] => none
  | b :: rest =>
    if b < 0x80 then some (b, rest)
    else
      let n := b &&& 0x7f
      if rest.length < n then none
      else some ((rest.take n).foldl (fun acc x => acc * 256 + x) 0, rest.drop n)

/-- Parse one `0x02`-tagged integer field. -/
def parseIntTLV : List Nat → Option (List Nat × List Nat)
  | [] => none
  | t :: rest =>
    if t = 0x02 then
      match parseLen rest with
      | none => none
      | some (len, rest1) =>
        if len ≤ rest1.length then some (rest1.take len, rest1.drop len) else none
    else none

/-- Parse the outer `0x30` container holding exactly two integer
fields, requiring the announced length to match and nothing to remain. -/
def derDecode (bytes : List Nat) : Option (List Nat × List Nat) :=
  match bytes with
  | t :: rest =>
    if t = 0x30 then
      match parseLen rest with
      | none => none
      | some (len, rest1) =>
        if rest1.length = len then
          match parseIntTLV rest1 with
          | none => none
          | some (r, rest2) =>
            match parseIntTLV rest2 with
            | none => none
            | some (s, rest3) => if rest3 = [] then some (r, s) else none
        else none
    else none
  | [] => none

/-! ## Association lists as JavaScript `Map`s

`SigningService.preparedTransactions` and `SdkManager.sdkPool` are
JavaScript `Map`s keyed by strings.  A `Map` holds at most one entry
per key, iterates in insertion order, `set` replaces in place, and
`delete` removes the entry.  `aset` and `aerase` realise exactly that
on association lists. -/

/-- `Map.get`. -/
def alookup {α : Type} : List (String × α) → String → Option α
  | [], _ => none
  | (k, v) :: rest, key => if k = key then some v else alookup rest key

/-- `Map.set`: replace in place when the key is present, append
otherwise. -/
def aset {α : Type} (m : List (String × α)) (k : String) (v : α) : List (String × α) :=
  if (alookup m k).isSome then m.map fun p => if p.1 = k then (k, v) else p
  else m ++ [(k, v)]

/-- `Map.delete`. -/
def aerase {α : Type} : List (String × α) → String → List (String × α)
  | [], _ => []
  | (k0, v) :: rest, k =>
    if k0 = k then aerase rest k else (k0, v) :: aerase rest k

/-- The key list of a map. -/
def akeys {α : Type} (m : List (String × α)) : List String := m.map Prod.fst

/-! ## The signing protocol engine (`SigningService`)

`sign` (lines 61-119) and `getSignedTransaction` (lines 274-367) are
translated with their state (the `preparedTransactions` map) passed
explicitly.  The external collaborators are abstracted at the
interface boundary the spec fixes in §6:

* `ripple-binary-codec`'s `encode`/`decode` and the hash helpers are
  parameters (`enc`, `dec`, `hashS`);
* the Fireblocks custody interaction of lines 306-321 (submission and
  `waitForSignature` polling) is summarised by a `CustodyOutcome`
  value: either the `SigningError` the polling threw, a raw transport
  exception, or the completed response's `signedMessages` payload;
* the fresh identifier of line 96 (`Date.now() + Math.random()`) is an
  explicit `txId` argument. -/

/-- One element of an XRPL `Signers` array (the inner `Signer`
object of lines 337-344). -/
structure SignerEntry where
  Account : String
  SigningPubKey : String
  TxnSignature : String
deriving DecidableEq, Repr

/-- The slice of an XRPL `Transaction` this core reads or writes,
plus an opaque field list for every other top-level field.  `none`
models an absent (`delete`d / never set) field. -/
structure Transaction where
  TxnSignature : Option String := none
  Signers : Option (List SignerEntry) := none
  SigningPubKey : Option String := none
  rest : List (String × String) := []
deriving DecidableEq, Repr

/-- JavaScript truthiness of `tx.TxnSignature`: a missing field is
`undefined` (falsy) and the empty string is falsy. -/
def txnSignatureTruthy (t : Transaction) : Bool :=
  match t.TxnSignature with
  | some s => s ≠ ""
  | none => false

/-- JavaScript truthiness of `tx.Signers`: any array is truthy, even
the empty one; only a missing field is falsy. -/
def signersTruthy (t : Transaction) : Bool := t.Signers.isSome

/-- The `multisign` parameter of `sign`: `boolean | string |
undefined`. -/
inductive MsParam where
  | missing
  | ofBool (b : Bool)
  | ofStr (s : String)
deriving DecidableEq, Repr

/-- The resolved `multisignAddress` local of lines 70-75: `false`, or
a string (possibly empty, which JavaScript later treats as falsy). -/
inductive MsAddr where
  | ofBool (b : Bool)
  | ofStr (s : String)
deriving DecidableEq, Repr

/-- JavaScript truthiness of the `boolean | string` union. -/
def MsAddr.truthy : MsAddr → Bool
  | .ofBool b => b
  | .ofStr s => s ≠ ""

/-- The wallet the service is bound to (only the two fields the
source reads). -/
structure WalletInfo where
  classicAddress : String
  publicKey : String
deriving DecidableEq, Repr

/-- Lines 70-75: a string argument is taken as the multisign address,
a truthy non-string selects the wallet's own address, anything else
leaves `multisignAddress = false`. -/
def resolveMultisign (w : WalletInfo) : MsParam → MsAddr
  | .ofStr s => .ofStr s
  | .ofBool true => .ofStr w.classicAddress
  | _ => .ofBool false

/-- A stored `preparedTransactions` entry (lines 27-33). -/
structure PreparedEntry where
  tx : Transaction
  multisignAddress : MsAddr
deriving DecidableEq, Repr

/-- The `preparedTransactions` map. -/
abbrev PreparedMap : Type := List (String × PreparedEntry)

/-- The `{tx_blob, hash}` record `sign` returns (a placeholder). -/
structure Placeholder where
  tx_blob : String
  hash : String
deriving DecidableEq, Repr

/-- A typed `SigningError` (src/errors/errors.ts): a machine-readable
code plus a human message. -/
structure SigningError where
  code : String
  message : String
deriving DecidableEq, Repr

/-- The error thrown at lines 78-83. -/
def alreadySignedError : SigningError :=
  ⟨"AlreadySigned", "Transaction must not contain \"TxnSignature\" or \"Signers\""⟩

/-- The error thrown at lines 284-289. -/
def invalidPlaceholderError : SigningError :=
  ⟨"InvalidPlaceholder",
    "Invalid transaction placeholder. Use sign() before getSignedTransaction()"⟩

/-- The error thrown at lines 294-299. -/
def placeholderExpiredError : SigningError :=
  ⟨"PlaceholderExpired", "Prepared transaction expired or not found"⟩

/-- The error thrown at lines 323-328. -/
def noSignatureError : SigningError :=
  ⟨"NoSignature", "No signature returned from Fireblocks"⟩

/-- The error thrown at lines 193-198 when the re-decoded transaction
carries neither a signature nor a signer list. -/
def serializationError : SigningError :=
  ⟨"SerializationError", "Serialized transaction missing TxnSignature or Signers"⟩

/-- `SigningService.sign` (lines 61-119), with the
`preparedTransactions` map threaded explicitly and the generated id
passed in as `txId`.  Returns the thrown error or the placeholder,
together with the map after the call. -/
def sign (w : WalletInfo) (st : PreparedMap) (transaction : Transaction)
    (publicKey : String) (multisign : MsParam) (txId : String) :
    Except SigningError Placeholder × PreparedMap :=
  let multisignAddress := resolveMultisign w multisign
  if txnSignatureTruthy transaction || signersTruthy transaction then
    (.error alreadySignedError, st)
  else
    let tx : Transaction :=
      { transaction with
        TxnSignature := none
        Signers := none
        SigningPubKey := some (if multisignAddress.truthy then "" else publicKey) }
    (.ok ⟨"prepared:" ++ txId, "hash:" ++ txId⟩,
      aset st txId ⟨tx, multisignAddress⟩)

/-- The `{r, s}` component record of a Fireblocks signed message
(both fields optional in the SDK's type). -/
structure SigRS where
  r : Option String := none
  s : Option String := none
deriving DecidableEq, Repr

/-- One entry of `signedMessages`. -/
structure SignedMessage where
  signature : Option SigRS := none
deriving DecidableEq, Repr

/-- Summary of the custody interaction of lines 306-321: the
submission plus `waitForSignature` polling either throws a typed
`SigningError` (terminal status, invalid transaction id, wrapped
transport error), throws a raw non-`SigningError` exception, or
completes with the response's optional `signedMessages` array. -/
inductive CustodyOutcome where
  | throwsErr (e : SigningError)
  | throwsRaw (msg : String)
  | success (signedMessages : Option (List SignedMessage))
deriving DecidableEq, Repr

/-- Result of a JavaScript async call: it can return, throw, or never
settle (an infinite loop with no suspension into the error path). -/
inductive JsOutcome (α : Type) where
  | diverges
  | throws (e : SigningError)
  | returns (a : α)
deriving DecidableEq, Repr

/-- The `{tx_blob, hash}` record of a finished signed transaction,
over an abstract blob type. -/
structure SignedTxn (β : Type) where
  tx_blob : β
  hash : String
deriving DecidableEq, Repr

/-- JavaScript `String.prototype.startsWith` on code units (the
built-in `String.startsWith` of Lean is avoided only because its
byte-position recursion does not reduce inside the kernel). -/
def strStartsWith (s p : String) : Bool :=
  decide (s.toList.take p.toList.length = p.toList)

/-- JavaScript `String.prototype.substring(n)` on code units. -/
def strDrop (s : String) (n : Nat) : String := ⟨s.toList.drop n⟩

/-- The account written into the single signer entry (lines 338-341):
the stored multisign address when it is a string, else the wallet's
own address. -/
def msAccount (w : WalletInfo) : MsAddr → String
  | .ofStr s => s
  | .ofBool _ => w.classicAddress

/-- `signedMessages?.[0]?.signature` (line 322). -/
def firstSignature (msgs : Option (List SignedMessage)) : Option SigRS :=
  (msgs.getD []).head?.bind (·.signature)

/-- `SigningService.getSignedTransaction` (lines 274-367) together
with the body of `checkTxSerialization` (lines 187-218), over an
abstract ledger codec `enc`/`dec` and signed-transaction hash
`hashS` (the `ripple-binary-codec` / `xrpl` collaborators of §6).

Faithful control flow: placeholder prefix check; map lookup; map
deletion *before* the `try` block (lines 291-300); then, inside the
`try`, the custody outcome, the `signedMessages?.[0]?.signature`
extraction, the DER encoding (whose non-termination surfaces as
`JsOutcome.diverges`), the multisign/single-sig reconstruction, the
serialization self-check and the final hash.  A raw exception from a
collaborator is wrapped by the `catch` of lines 357-366. -/
def getSignedTransaction {β : Type} (w : WalletInfo)
    (enc : Transaction → β) (dec : β → Transaction) (hashS : β → String)
    (st : PreparedMap) (placeholder : Placeholder) (custody : CustodyOutcome) :
    JsOutcome (SignedTxn β) × PreparedMap :=
  if ¬ strStartsWith placeholder.tx_blob "prepared:" then
    (.throws invalidPlaceholderError, st)
  else
    let txId := strDrop placeholder.tx_blob 9
    match alookup st txId with
    | none => (.throws placeholderExpiredError, st)
    | some prepared =>
      let st1 := aerase st txId
      match custody with
      | .throwsRaw msg =>
        (.throws ⟨"GetSignedTransactionFailed",
          "Error signing transaction with Fireblocks: " ++ msg⟩, st1)
      | .throwsErr e => (.throws e, st1)
      | .success msgs =>
        match firstSignature msgs with
        | none => (.throws noSignatureError, st1)
        | some sg =>
          match toDER (sg.r.getD "") (sg.s.getD "") with
          | none => (.diverges, st1)
          | some der =>
            let finalTx : Transaction :=
              if prepared.multisignAddress.truthy then
                { prepared.tx with
                  Signers := some [⟨msAccount w prepared.multisignAddress,
                    w.publicKey, der⟩] }
              else { prepared.tx with TxnSignature := some der }
            let encodedTx := enc finalTx
            let decoded := dec encodedTx
            if ¬ txnSignatureTruthy decoded ∧ ¬ signersTruthy decoded then
              (.throws serializationError, st1)
            else
              (.returns ⟨encodedTx, hashS encodedTx⟩, st1)

/-! ## Object-heap view of `sign`'s mutations (lines 78-102)

`sign` receives its transaction argument by reference.  To state that
it never mutates the caller's object, the field writes of lines 86-93
are replayed against an explicit heap of transaction objects: the
spread `{ ...transaction }` allocates a copy at a fresh reference and
the two `delete`s and the `SigningPubKey` assignment write to that
fresh reference only.  The `AlreadySigned` throw of lines 78-83 leaves
the heap untouched. -/

/-- Write one object of the heap. -/
def updateHeap (h : Nat → Transaction) (i : Nat) (t : Transaction) :
    Nat → Transaction :=
  fun j => if j = i then t else h j

/-- The reference-level replay of `sign`'s validation and mutations
(lines 78-93).  Returns the heap after the call and whether the copy
was made (`false` when the `AlreadySigned` error was thrown first). -/
def signHeap (h : Nat → Transaction) (txRef freshRef : Nat)
    (publicKey : String) (multisignAddress : MsAddr) :
    (Nat → Transaction) × Bool :=
  if txnSignatureTruthy (h txRef) || signersTruthy (h txRef) then
    (h, false)
  else
    let h1 := updateHeap h freshRef (h txRef)
    let h2 := updateHeap h1 freshRef { h1 freshRef with TxnSignature := none }
    let h3 := updateHeap h2 freshRef { h2 freshRef with Signers := none }
    let h4 := updateHeap h3 freshRef
      { h3 freshRef with
        SigningPubKey := some (if multisignAddress.truthy then "" else publicKey) }
    (h4, true)

/-! ## The resource pool (`SdkManager`, src/pool/SdkManager.ts)

The pool is the `sdkPool` map from vault-account ids to
`{sdk, lastUsed, isInUse}` items.  The sdk handle itself carries no
state the claims mention, so an item is just its timestamp and flag;
timestamps are naturals and every operation takes the current time as
an argument.  `createSdkInstance`'s fallible account-info fetch is a
boolean `createOk` argument to `getSdk`. -/

/-- One `SdkPoolItem` (src/pool/types.ts), without the opaque handle. -/
structure PoolItem where
  lastUsed : Nat
  isInUse : Bool
deriving DecidableEq, Repr

/-- The `sdkPool` map. -/
abbrev PoolState : Type := List (String × PoolItem)

/-- The slice of `PoolConfig` the embedded operations read. -/
structure PoolCfg where
  maxPoolSize : Nat
  idleTimeoutMs : Nat
deriving DecidableEq, Repr

/-- What `getSdk` throws: the raw `Error` of lines 69-72, or the
typed `ValidationError` of lines 137-141 raised by
`createSdkInstance`. -/
inductive PoolThrown where
  | rawError (msg : String)
  | validationError (code : String) (msg : String)
deriving DecidableEq, Repr

/-- The capacity message of lines 69-71. -/
def capacityMsg (cfg : PoolCfg) : String :=
  "SDK pool is at maximum capacity (" ++ toString cfg.maxPoolSize
    ++ ") with no idle connections"

/-- The scan of `removeOldestIdleSdk` (lines 149-158): fold over the
entries in iteration order carrying `(oldestKey, oldestDate)`, taking
an entry when it is not in use and strictly older than the best so
far; `oldestDate` starts at `new Date()` (the current time). -/
def findOldestIdleGo : List (String × PoolItem) → Option String × Nat → Option String × Nat
  | [], acc => acc
  | (k, v) :: rest, (ok, od) =>
    if v.isInUse = false ∧ v.lastUsed < od then findOldestIdleGo rest (some k, v.lastUsed)
    else findOldestIdleGo rest (ok, od)

/-- The key `removeOldestIdleSdk` selects, if any. -/
def findOldestIdle (pool : PoolState) (now : Nat) : Option String :=
  (findOldestIdleGo pool (none, now)).1

/-- `SdkManager.removeOldestIdleSdk` (lines 148-169): shut down and
delete the selected entry, reporting whether one was removed. -/
def removeOldestIdleSdk (pool : PoolState) (now : Nat) : Bool × PoolState :=
  match findOldestIdle pool now with
  | some k => (true, aerase pool k)
  | none => (false, pool)

/-- `SdkManager.cleanupIdleSdks` (lines 174-197): collect the keys of
the not-in-use entries whose idle time strictly exceeds the timeout,
then delete each collected key. -/
def cleanupIdleSdks (cfg : PoolCfg) (pool : PoolState) (now : Nat) : PoolState :=
  let keysToRemove :=
    (pool.filter fun p =>
      p.2.isInUse = false ∧ now - p.2.lastUsed > cfg.idleTimeoutMs).map Prod.fst
  keysToRemove.foldl aerase pool

/-- `SdkManager.getSdk` (lines 49-100).  Branches in source order:
cache hit on an idle entry (lines 54-59); the capacity check with
attempted eviction, only when no entry exists for the account (lines
62-73, throwing the *raw* `Error` when nothing is evictable); fresh
creation (lines 76-83, `createOk = false` standing for a failed
account-info fetch, which raises the typed `SdkCreationFailed`
`ValidationError` and leaves the pool as the eviction left it); and
the concurrent-reuse branch for an entry already in use (lines
84-99). -/
def getSdk (cfg : PoolCfg) (pool : PoolState) (vid : String) (now : Nat)
    (createOk : Bool) : Except PoolThrown Unit × PoolState :=
  match alookup pool vid with
  | some item =>
    if item.isInUse = false then
      (.ok (), aset pool vid ⟨now, true⟩)
    else
      -- capacity check skipped: `!poolItem` is false
      (.ok (), aset pool vid ⟨now, true⟩)
  | none =>
    if pool.length ≥ cfg.maxPoolSize then
      match findOldestIdle pool now with
      | none => (.error (.rawError (capacityMsg cfg)), pool)
      | some k =>
        let pool1 := aerase pool k
        if createOk then (.ok (), aset pool1 vid ⟨now, true⟩)
        else (.error (.validationError "SdkCreationFailed"
          ("Failed to create SDK instance for vault " ++ vid)), pool1)
    else
      if createOk then (.ok (), aset pool vid ⟨now, true⟩)
      else (.error (.validationError "SdkCreationFailed"
        ("Failed to create SDK instance for vault " ++ vid)), pool)

/-- `SdkManager.releaseSdk` (lines 106-112): mark not-in-use and
refresh the timestamp; no-op when the account has no entry. -/
def releaseSdk (pool : PoolState) (vid : String) (now : Nat) : PoolState :=
  match alookup pool vid with
  | some _ => aset pool vid ⟨now, false⟩
  | none => pool

/-- One externally-triggerable pool operation, for stating trace
invariants: an acquire (with its creation outcome), a release, a
periodic idle cleanup tick, or a standalone capacity eviction. -/
inductive PoolOp where
  | acquire (vid : String) (now : Nat) (createOk : Bool)
  | release (vid : String) (now : Nat)
  | cleanup (now : Nat)
  | evict (now : Nat)
deriving DecidableEq, Repr

/-- The pool state after one operation. -/
def poolStep (cfg : PoolCfg) (pool : PoolState) : PoolOp → PoolState
  | .acquire vid now createOk => (getSdk cfg pool vid now createOk).2
  | .release vid now => releaseSdk pool vid now
  | .cleanup now => cleanupIdleSdks cfg pool now
  | .evict now => (removeOldestIdleSdk pool now).2

/-- The pool state after a whole trace, starting from the empty pool
a fresh `SdkManager` owns. -/
def runPool (cfg : PoolCfg) (ops : List PoolOp) : PoolState :=
  ops.foldl (poolStep cfg) []

/-! ## Association-list lemmas -/

theorem alookup_eq_none_iff {α : Type} (m : List (String × α)) (k : String) :
    alookup m k = none ↔ k ∉ akeys m := by
  induction m with
  | nil => simp [alookup, akeys]
  | cons p rest ih =>
    obtain ⟨k0, v0⟩ := p
    by_cases h : k0 = k <;> simp [alookup, akeys, h, ih, Ne.symm]

theorem alookup_isSome_of_mem_akeys {α : Type} {m : List (String × α)} {k : String}
    (h : k ∈ akeys m) : (alookup m k).isSome := by
  cases hl : alookup m k with
  | none => exact absurd h ((alookup_eq_none_iff m k).mp hl)
  | some _ => rfl

theorem alookup_aerase_self {α : Type} (m : List (String × α)) (k : String) :
    alookup (aerase m k) k = none := by
  induction m with
  | nil => simp [aerase, alookup]
  | cons p rest ih =>
    obtain ⟨k0, v0⟩ := p
    by_cases h : k0 = k <;> simp [aerase, alookup, h, ih]

theorem alookup_aerase_ne {α : Type} (m : List (String × α)) {k k' : String}
    (h : k' ≠ k) : alookup (aerase m k) k' = alookup m k' := by
  induction m with
  | nil => simp [aerase]
  | cons p rest ih =>
    obtain ⟨k0, v0⟩ := p
    by_cases hk : k0 = k
    · subst hk
      have hne : k0 ≠ k' := fun heq => h (heq.symm)
      simp [aerase, alookup, hne, ih]
    · by_cases hk' : k0 = k'
      · subst hk'
        simp [aerase, alookup, hk]
      · simp [aerase, alookup, hk, hk', ih]

theorem aerase_sublist {α : Type} (m : List (String × α)) (k : String) :
    List.Sublist (aerase m k) m := by
  induction m with
  | nil => simp [aerase]
  | cons p rest ih =>
    obtain ⟨k0, v0⟩ := p
    by_cases h : k0 = k
    · simpa [aerase, h] using ih.cons (k0, v0)
    · simpa [aerase, h] using ih.cons₂ (k0, v0)

theorem akeys_sublist_of_sublist {α : Type} {m m' : List (String × α)}
    (h : List.Sublist m' m) : List.Sublist (akeys m') (akeys m) := h.map Prod.fst

theorem alookup_none_of_sublist {α : Type} {m m' : List (String × α)} {k : String}
    (h : List.Sublist m' m) (hk : alookup m k = none) : alookup m' k = none := by
  rw [alookup_eq_none_iff] at hk ⊢
  exact fun hmem => hk ((akeys_sublist_of_sublist h).mem hmem)

theorem length_aerase_lt {α : Type} {m : List (String × α)} {k : String}
    (h : (alookup m k).isSome) : (aerase m k).length < m.length := by
  induction m with
  | nil => simp [alookup] at h
  | cons p rest ih =>
    obtain ⟨k0, v0⟩ := p
    by_cases hk : k0 = k
    · have hsub := (aerase_sublist rest k).length_le
      have heq : aerase ((k0, v0) :: rest) k = aerase rest k := by
        simp [aerase, hk]
      rw [heq, List.length_cons]
      omega
    · have h' : (alookup rest k).isSome := by simpa [alookup, hk] using h
      have hlt := ih h'
      have heq : aerase ((k0, v0) :: rest) k = (k0, v0) :: aerase rest k := by
        simp [aerase, hk]
      rw [heq, List.length_cons, List.length_cons]
      omega

theorem length_aset_some {α : Type} {m : List (String × α)} {k : String} (v : α)
    (h : (alookup m k).isSome) : (aset m k v).length = m.length := by
  simp [aset, h]

theorem length_aset_none {α : Type} {m : List (String × α)} {k : String} (v : α)
    (h : alookup m k = none) : (aset m k v).length = m.length + 1 := by
  simp [aset, h]

theorem akeys_aset_some {α : Type} {m : List (String × α)} {k : String} (v : α)
    (h : (alookup m k).isSome) : akeys (aset m k v) = akeys m := by
  simp only [aset, h, if_true, akeys, List.map_map]
  apply List.map_congr_left
  intro p _
  by_cases hp : p.1 = k <;> simp [hp]

theorem akeys_aset_none {α : Type} {m : List (String × α)} {k : String} (v : α)
    (h : alookup m k = none) : akeys (aset m k v) = akeys m ++ [k] := by
  simp [aset, h, akeys]

theorem nodup_akeys_aset {α : Type} {m : List (String × α)} {k : String} (v : α)
    (h : (akeys m).Nodup) : (akeys (aset m k v)).Nodup := by
  cases hl : alookup m k with
  | some w =>
    rw [akeys_aset_some v (by simp [hl])]
    exact h
  | none =>
    rw [akeys_aset_none v hl]
    have hk : k ∉ akeys m := (alookup_eq_none_iff m k).mp hl
    simpa [List.nodup_append] using ⟨h, hk⟩

theorem nodup_akeys_of_sublist {α : Type} {m m' : List (String × α)}
    (h : List.Sublist m' m) (hm : (akeys m).Nodup) : (akeys m').Nodup :=
  (akeys_sublist_of_sublist h).nodup hm

/-- The key returned by the idle scan is the carried candidate or a
key of the scanned list. -/
theorem findOldestIdleGo_mem {k : String} :
    ∀ (l : List (String × PoolItem)) (ok : Option String) (od : Nat),
      (findOldestIdleGo l (ok, od)).1 = some k → ok = some k ∨ k ∈ akeys l := by
  intro l
  induction l with
  | nil => intro ok od h; exact Or.inl (by simpa [findOldestIdleGo] using h)
  | cons p rest ih =>
    intro ok od h
    obtain ⟨k0, v0⟩ := p
    have hak : akeys ((k0, v0) :: rest) = k0 :: akeys rest := rfl
    simp only [findOldestIdleGo] at h
    by_cases hc : v0.isInUse = false ∧ v0.lastUsed < od
    · rw [if_pos hc] at h
      rcases ih _ _ h with h1 | h1
      · have hk0 : k0 = k := Option.some.inj h1
        exact Or.inr (by rw [hak, ← hk0]; exact List.mem_cons_self _ _)
      · exact Or.inr (by rw [hak]; exact List.mem_cons_of_mem _ h1)
    · rw [if_neg hc] at h
      rcases ih _ _ h with h1 | h1
      · exact Or.inl h1
      · exact Or.inr (by rw [hak]; exact List.mem_cons_of_mem _ h1)

theorem findOldestIdle_mem {pool : PoolState} {now : Nat} {k : String}
    (h : findOldestIdle pool now = some k) : k ∈ akeys pool := by
  rcases findOldestIdleGo_mem pool none now h with h1 | h1
  · exact absurd h1 (by simp)
  · exact h1

/-! ## Pool invariant -/

/-- The pool invariant of §3: unique account keys and a bounded entry
count. -/
def PoolInv (cfg : PoolCfg) (pool : PoolState) : Prop :=
  (akeys pool).Nodup ∧ pool.length ≤ cfg.maxPoolSize

theorem foldl_aerase_sublist {α : Type} :
    ∀ (ks : List String) (m : List (String × α)),
      List.Sublist (ks.foldl aerase m) m := by
  intro ks
  induction ks with
  | nil => intro m; exact List.Sublist.refl m
  | cons k ks ih =>
    intro m
    exact (ih (aerase m k)).trans (aerase_sublist m k)

theorem getSdk_preserves_inv (cfg : PoolCfg) (pool : PoolState) (vid : String)
    (now : Nat) (createOk : Bool) (h : PoolInv cfg pool) :
    PoolInv cfg (getSdk cfg pool vid now createOk).2 := by
  obtain ⟨hnd, hlen⟩ := h
  cases hlk : alookup pool vid with
  | some item =>
    have hs : (alookup pool vid).isSome := by simp [hlk]
    have hstate : (getSdk cfg pool vid now createOk).2
        = aset pool vid ⟨now, true⟩ := by
      cases hiu : item.isInUse <;> simp [getSdk, hlk, hiu]
    rw [hstate]
    exact ⟨nodup_akeys_aset _ hnd,
      by rw [length_aset_some _ hs]; exact hlen⟩
  | none =>
    by_cases hcap : pool.length ≥ cfg.maxPoolSize
    · cases hfind : findOldestIdle pool now with
      | none =>
        have hstate : (getSdk cfg pool vid now createOk).2 = pool := by
          simp [getSdk, hlk, hcap, hfind]
        rw [hstate]; exact ⟨hnd, hlen⟩
      | some k =>
        have hks : (alookup pool k).isSome :=
          alookup_isSome_of_mem_akeys (findOldestIdle_mem hfind)
        have hlt : (aerase pool k).length < pool.length := length_aerase_lt hks
        have hnd1 : (akeys (aerase pool k)).Nodup :=
          nodup_akeys_of_sublist (aerase_sublist pool k) hnd
        have hvid1 : alookup (aerase pool k) vid = none :=
          alookup_none_of_sublist (aerase_sublist pool k) hlk
        cases createOk with
        | true =>
          have hstate : (getSdk cfg pool vid now true).2
              = aset (aerase pool k) vid ⟨now, true⟩ := by
            simp [getSdk, hlk, hcap, hfind]
          rw [hstate]
          refine ⟨nodup_akeys_aset _ hnd1, ?_⟩
          rw [length_aset_none _ hvid1]; omega
        | false =>
          have hstate : (getSdk cfg pool vid now false).2 = aerase pool k := by
            simp [getSdk, hlk, hcap, hfind]
          rw [hstate]
          exact ⟨hnd1, by omega⟩
    · have hlt : pool.length < cfg.maxPoolSize := Nat.lt_of_not_le hcap
      cases createOk with
      | true =>
        have hstate : (getSdk cfg pool vid now true).2
            = aset pool vid ⟨now, true⟩ := by
          simp [getSdk, hlk, hcap]
        rw [hstate]
        refine ⟨nodup_akeys_aset _ hnd, ?_⟩
        rw [length_aset_none _ hlk]; omega
      | false =>
        have hstate : (getSdk cfg pool vid now false).2 = pool := by
          simp [getSdk, hlk, hcap]
        rw [hstate]
        exact ⟨hnd, hlen⟩

theorem poolStep_preserves_inv (cfg : PoolCfg) (pool : PoolState) (op : PoolOp)
    (h : PoolInv cfg pool) : PoolInv cfg (poolStep cfg pool op) := by
  obtain ⟨hnd, hlen⟩ := h
  cases op with
  | acquire vid now createOk =>
    exact getSdk_preserves_inv cfg pool vid now createOk ⟨hnd, hlen⟩
  | release vid now =>
    cases hlk : alookup pool vid with
    | some item =>
      have hs : (alookup pool vid).isSome := by simp [hlk]
      have hkeys := akeys_aset_some (⟨now, false⟩ : PoolItem) hs
      have hlen' := length_aset_some (⟨now, false⟩ : PoolItem) hs
      simp_all [poolStep, releaseSdk, hlk, PoolInv]
    | none => simp_all [poolStep, releaseSdk, hlk, PoolInv]
  | cleanup now =>
    have hsub := foldl_aerase_sublist
      ((pool.filter fun p =>
        p.2.isInUse = false ∧ now - p.2.lastUsed > cfg.idleTimeoutMs).map Prod.fst) pool
    exact ⟨nodup_akeys_of_sublist hsub hnd,
      le_trans hsub.length_le hlen⟩
  | evict now =>
    cases hfind : findOldestIdle pool now with
    | none => simp_all [poolStep, removeOldestIdleSdk, hfind, PoolInv]
    | some k =>
      have hsub := aerase_sublist pool k
      refine ⟨?_, ?_⟩ <;> simp_all [poolStep, removeOldestIdleSdk, hfind, PoolInv]
      · exact nodup_akeys_of_sublist hsub hnd
      · exact le_trans hsub.length_le hlen

theorem runPool_inv (cfg : PoolCfg) (ops : List PoolOp) :
    PoolInv cfg (runPool cfg ops) := by
  have hgen : ∀ (l : List PoolOp) (pool : PoolState), PoolInv cfg pool →
      PoolInv cfg (l.foldl (poolStep cfg) pool) := by
    intro l
    induction l with
    | nil => intro pool h; exact h
    | cons op rest ih =>
      intro pool h
      exact ih _ (poolStep_preserves_inv cfg pool op h)
  exact hgen ops [] ⟨List.nodup_nil, Nat.zero_le _⟩

theorem filter_key_length_le_one {α : Type} {m : List (String × α)}
    (h : (akeys m).Nodup) (k : String) :
    (m.filter fun p => p.1 = k).length ≤ 1 := by
  induction m with
  | nil => simp
  | cons p rest ih =>
    obtain ⟨k0, v0⟩ := p
    have hk0 : k0 ∉ akeys rest := by
      have : akeys ((k0, v0) :: rest) = k0 :: akeys rest := rfl
      rw [this] at h
      exact (List.nodup_cons.mp h).1
    have hrest : (akeys rest).Nodup := by
      have : akeys ((k0, v0) :: rest) = k0 :: akeys rest := rfl
      rw [this] at h
      exact (List.nodup_cons.mp h).2
    by_cases hk : k0 = k
    · subst hk
      have hempty : rest.filter (fun p => p.1 = k0) = [] := by
        rw [List.filter_eq_nil_iff]
        intro a ha
        simp only [decide_eq_true_eq]
        intro hak
        exact hk0 (hak ▸ List.mem_map_of_mem Prod.fst ha)
      simp [List.filter_cons, hempty]
    · have := ih hrest
      simp only [List.filter_cons]
      simp only [decide_eq_true_eq]
      rw [if_neg hk]
      exact this

/-! ## Eviction and cleanup characterisation -/

theorem alookup_mem {α : Type} {m : List (String × α)} {k : String} {v : α}
    (h : alookup m k = some v) : (k, v) ∈ m := by
  induction m with
  | nil => simp [alookup] at h
  | cons p rest ih =>
    obtain ⟨k0, v0⟩ := p
    by_cases hk : k0 = k
    · subst hk
      have heq : alookup ((k0, v0) :: rest) k0 = some v0 := by
        simp [alookup]
      rw [heq, Option.some_inj] at h
      subst h
      exact List.mem_cons_self _ _
    · have heq : alookup ((k0, v0) :: rest) k = alookup rest k := by
        simp [alookup, hk]
      rw [heq] at h
      exact List.mem_cons_of_mem _ (ih h)

theorem mem_alookup_of_nodup {α : Type} {m : List (String × α)} {k : String} {v : α}
    (hnd : (akeys m).Nodup) (h : (k, v) ∈ m) : alookup m k = some v := by
  induction m with
  | nil => simp at h
  | cons p rest ih =>
    obtain ⟨k0, v0⟩ := p
    have hak : akeys ((k0, v0) :: rest) = k0 :: akeys rest := rfl
    rw [hak] at hnd
    rcases List.mem_cons.mp h with h1 | h1
    · injection h1 with hk hv
      subst hk; subst hv
      simp [alookup]
    · have hk0 : k0 ≠ k := by
        intro heq
        subst heq
        exact (List.nodup_cons.mp hnd).1 (List.mem_map_of_mem Prod.fst h1)
      have heq : alookup ((k0, v0) :: rest) k = alookup rest k := by
        simp [alookup, hk0]
      rw [heq]
      exact ih (List.nodup_cons.mp hnd).2 h1

/-- Full behaviour of the idle scan: the running date never
increases, ends below every idle entry's timestamp, and either the
accumulator is returned untouched or the result names an idle entry
of the list whose timestamp is the final date. -/
theorem findOldestIdleGo_spec :
    ∀ (l : List (String × PoolItem)) (ok : Option String) (od : Nat),
      (findOldestIdleGo l (ok, od)).2 ≤ od ∧
      (∀ p ∈ l, p.2.isInUse = false → (findOldestIdleGo l (ok, od)).2 ≤ p.2.lastUsed) ∧
      ((findOldestIdleGo l (ok, od)) = (ok, od) ∨
        ∃ k it, (k, it) ∈ l ∧ it.isInUse = false ∧
          (findOldestIdleGo l (ok, od)).1 = some k ∧
          (findOldestIdleGo l (ok, od)).2 = it.lastUsed) := by
  intro l
  induction l with
  | nil => intro ok od; exact ⟨le_refl _, by simp, Or.inl rfl⟩
  | cons p rest ih =>
    intro ok od
    obtain ⟨k0, v0⟩ := p
    by_cases hc : v0.isInUse = false ∧ v0.lastUsed < od
    · have hred : findOldestIdleGo ((k0, v0) :: rest) (ok, od)
          = findOldestIdleGo rest (some k0, v0.lastUsed) := by
        simp [findOldestIdleGo, hc]
      obtain ⟨ih1, ih2, ih3⟩ := ih (some k0) v0.lastUsed
      refine ⟨?_, ?_, ?_⟩
      · rw [hred]; exact le_trans ih1 (le_of_lt hc.2)
      · intro q hq hqi
        rcases List.mem_cons.mp hq with h1 | h1
        · rw [hred, h1]; exact ih1
        · rw [hred]; exact ih2 q h1 hqi
      · rw [hred]
        rcases ih3 with h1 | h1
        · exact Or.inr ⟨k0, v0, List.mem_cons_self _ _, hc.1,
            by rw [h1], by rw [h1]⟩
        · obtain ⟨k, it, hmem, hidle, h1, h2⟩ := h1
          exact Or.inr ⟨k, it, List.mem_cons_of_mem _ hmem, hidle, h1, h2⟩
    · have hred : findOldestIdleGo ((k0, v0) :: rest) (ok, od)
          = findOldestIdleGo rest (ok, od) := by
        simp [findOldestIdleGo, hc]
      obtain ⟨ih1, ih2, ih3⟩ := ih ok od
      refine ⟨?_, ?_, ?_⟩
      · rw [hred]; exact ih1
      · intro q hq hqi
        rcases List.mem_cons.mp hq with h1 | h1
        · have hge : od ≤ v0.lastUsed := by
            rcases not_and_or.mp hc with h2 | h2
            · rw [h1] at hqi
              exact absurd hqi h2
            · exact Nat.le_of_not_lt h2
          rw [hred, h1]
          exact le_trans ih1 hge
        · rw [hred]; exact ih2 q h1 hqi
      · rw [hred]
        rcases ih3 with h1 | h1
        · exact Or.inl h1
        · obtain ⟨k, it, hmem, hidle, h1, h2⟩ := h1
          exact Or.inr ⟨k, it, List.mem_cons_of_mem _ hmem, hidle, h1, h2⟩

/-- When the eviction scan selects a key, that key names a not-in-use
entry whose `lastUsed` is minimal among all not-in-use entries. -/
theorem findOldestIdle_spec {pool : PoolState} {now : Nat} {k : String}
    (hnd : (akeys pool).Nodup) (h : findOldestIdle pool now = some k) :
    ∃ it, alookup pool k = some it ∧ it.isInUse = false ∧
      ∀ k' it', alookup pool k' = some it' → it'.isInUse = false →
        it.lastUsed ≤ it'.lastUsed := by
  obtain ⟨h1, h2, h3⟩ := findOldestIdleGo_spec pool none now
  rcases h3 with heq | hex
  · rw [findOldestIdle, heq] at h
    simp at h
  · obtain ⟨k1, it, hmem, hidle, hk1, hval⟩ := hex
    have hkk : k1 = k := by
      rw [findOldestIdle] at h
      exact Option.some.inj (hk1 ▸ h)
    subst hkk
    refine ⟨it, mem_alookup_of_nodup hnd hmem, hidle, ?_⟩
    intro k' it' hlk' hidle'
    have := h2 (k', it') (alookup_mem hlk') hidle'
    rw [hval] at this
    exact this

/-- When every entry is in use, the eviction scan finds nothing. -/
theorem findOldestIdle_none_of_allInUse (pool : PoolState) (now : Nat)
    (h : ∀ p ∈ pool, p.2.isInUse = true) : findOldestIdle pool now = none := by
  obtain ⟨_, _, h3⟩ := findOldestIdleGo_spec pool none now
  rcases h3 with heq | hex
  · rw [findOldestIdle, heq]
  · obtain ⟨k, it, hmem, hidle, _, _⟩ := hex
    rw [h (k, it) hmem] at hidle
    exact absurd hidle (by simp)

theorem aerase_eq_filter {α : Type} (m : List (String × α)) (k : String) :
    aerase m k = m.filter fun p => p.1 ≠ k := by
  induction m with
  | nil => simp [aerase]
  | cons p rest ih =>
    obtain ⟨k0, v0⟩ := p
    by_cases hk : k0 = k <;> simp [aerase, hk, ih, List.filter_cons]

theorem foldl_aerase_eq_filter {α : Type} :
    ∀ (ks : List String) (m : List (String × α)),
      ks.foldl aerase m = m.filter fun p => p.1 ∉ ks := by
  intro ks
  induction ks with
  | nil => intro m; simp
  | cons k ks ih =>
    intro m
    have : (k :: ks).foldl aerase m = ks.foldl aerase (aerase m k) := rfl
    rw [this, ih, aerase_eq_filter, List.filter_filter]
    apply List.filter_congr
    intro p _
    by_cases h1 : p.1 = k <;> by_cases h2 : p.1 ∈ ks <;>
      simp [h1, h2, List.mem_cons]

/-- `cleanupIdleSdks` removes exactly the not-in-use entries whose
idle time strictly exceeds the timeout. -/
theorem cleanupIdleSdks_eq_filter (cfg : PoolCfg) (pool : PoolState) (now : Nat)
    (hnd : (akeys pool).Nodup) :
    cleanupIdleSdks cfg pool now
      = pool.filter fun p =>
          ¬ (p.2.isInUse = false ∧ now - p.2.lastUsed > cfg.idleTimeoutMs) := by
  rw [cleanupIdleSdks, foldl_aerase_eq_filter]
  apply List.filter_congr
  intro p hp
  rw [decide_eq_decide]
  apply not_congr
  constructor
  · intro hmem
    obtain ⟨q, hq, hq1⟩ := List.mem_map.mp hmem
    obtain ⟨hqmem, hqbad⟩ := List.mem_filter.mp hq
    have hqp : q = p := List.inj_on_of_nodup_map hnd hqmem hp hq1
    rw [← hqp]
    exact of_decide_eq_true hqbad
  · intro hbad
    exact List.mem_map_of_mem Prod.fst
      (List.mem_filter.mpr ⟨hp, decide_eq_true hbad⟩)

/-! ## Signing-protocol state lemmas -/

/-- Once `getSignedTransaction` has passed the prefix check and found
the prepared entry, the map after the call is the map with that entry
deleted — whatever the custody service then does.  This is the
unconditional `this.preparedTransactions.delete(txId)` of line 300,
placed before the `try` block. -/
theorem getSignedTransaction_state {β : Type} (w : WalletInfo)
    (enc : Transaction → β) (dec : β → Transaction) (hashS : β → String)
    (st : PreparedMap) (ph : Placeholder) (custody : CustodyOutcome)
    (e : PreparedEntry)
    (hpre : strStartsWith ph.tx_blob "prepared:" = true)
    (hlk : alookup st (strDrop ph.tx_blob 9) = some e) :
    (getSignedTransaction w enc dec hashS st ph custody).2
      = aerase st (strDrop ph.tx_blob 9) := by
  unfold getSignedTransaction
  rw [if_neg (by simp [hpre])]
  dsimp only
  rw [hlk]
  cases custody with
  | throwsRaw msg => rfl
  | throwsErr e2 => rfl
  | success msgs =>
    cases hfs : firstSignature msgs with
    | none => simp [hfs]
    | some sg =>
      cases hder : toDER (sg.r.getD "") (sg.s.getD "") with
      | none => simp [hfs, hder]
      | some der =>
        simp only [hfs, hder]
        split <;> split <;> rfl

/-! ## Round-trip lemmas for the DER encoder -/

theorem hexDigitVal_lt {c : Char} {v : Nat} (h : hexDigitVal c = some v) : v < 16 := by
  unfold hexDigitVal at h
  split at h
  · rw [Option.some_inj] at h; omega
  · split at h
    · rw [Option.some_inj] at h; omega
    · split at h
      · rw [Option.some_inj] at h; omega
      · exact absurd h (by simp)

theorem hexBytesJsAux_lt :
    ∀ (cs : List Char), ∀ b ∈ hexBytesJsAux cs, b < 256 := by
  intro cs
  induction cs using hexBytesJsAux.induct with
  | case1 c1 c2 rest v1 v2 hv1 hv2 ih =>
    intro b hb
    rw [show hexBytesJsAux (c1 :: c2 :: rest)
        = (16 * v1 + v2) :: hexBytesJsAux rest from by
      simp [hexBytesJsAux, hv1, hv2]] at hb
    rcases List.mem_cons.mp hb with h | h
    · have := hexDigitVal_lt hv1
      have := hexDigitVal_lt hv2
      omega
    · exact ih b h
  | case2 c1 c2 rest hnone =>
    intro b hb
    rw [show hexBytesJsAux (c1 :: c2 :: rest) = [] from by
      cases hv1 : hexDigitVal c1 with
      | none => simp [hexBytesJsAux, hv1]
      | some v1 =>
        cases hv2 : hexDigitVal c2 with
        | none => simp [hexBytesJsAux, hv1, hv2]
        | some v2 => exact (hnone v1 v2 hv1 hv2).elim] at hb
    simp at hb
  | case3 cs hne =>
    intro b hb
    rw [show hexBytesJsAux cs = [] from by
      cases cs with
      | nil => rfl
      | cons c rest =>
        cases rest with
        | nil => rfl
        | cons c2 rest2 => exact (hne c c2 rest2 rfl).elim] at hb
    simp at hb

theorem hexDigitVal_toHexUpper : ∀ n, n < 16 → hexDigitVal (toHexUpper n) = some n := by
  decide

theorem hexBytesJsAux_encode (bs : List Nat) (h : ∀ b ∈ bs, b < 256) :
    hexBytesJsAux (bs.flatMap fun b => [toHexUpper (b / 16), toHexUpper (b % 16)]) = bs := by
  induction bs with
  | nil => rfl
  | cons b rest ih =>
    have hb : b < 256 := h b (List.mem_cons_self _ _)
    have hdiv : b / 16 < 16 := by omega
    have hmod : b % 16 < 16 := by omega
    rw [List.flatMap_cons]
    rw [show ([toHexUpper (b / 16), toHexUpper (b % 16)]
        ++ rest.flatMap fun b => [toHexUpper (b / 16), toHexUpper (b % 16)])
      = toHexUpper (b / 16) :: toHexUpper (b % 16)
        :: rest.flatMap fun b => [toHexUpper (b / 16), toHexUpper (b % 16)] from rfl]
    rw [show hexBytesJsAux (toHexUpper (b / 16) :: toHexUpper (b % 16)
        :: rest.flatMap fun b => [toHexUpper (b / 16), toHexUpper (b % 16)])
      = (16 * (b / 16) + b % 16)
        :: hexBytesJsAux (rest.flatMap fun b => [toHexUpper (b / 16), toHexUpper (b % 16)]) from by
      simp [hexBytesJsAux, hexDigitVal_toHexUpper _ hdiv, hexDigitVal_toHexUpper _ hmod]]
    rw [ih (fun x hx => h x (List.mem_cons_of_mem _ hx))]
    congr 1
    omega

theorem hexBytesJs_hexEncodeUpper (bs : List Nat) (h : ∀ b ∈ bs, b < 256) :
    hexBytesJs (hexEncodeUpper bs) = bs :=
  hexBytesJsAux_encode bs h

theorem padHigh_mem {l : List Nat} {x : Nat} (h : x ∈ padHigh l) : x = 0 ∨ x ∈ l := by
  unfold padHigh at h
  split at h
  · rcases List.mem_cons.mp h with h1 | h1
    · exact Or.inl h1
    · exact Or.inr h1
  · exact Or.inr h

theorem rmPadding_mem : ∀ {l : List Nat} {x : Nat}, x ∈ rmPadding l → x ∈ l := by
  intro l
  induction l with
  | nil => intro x hx; simpa [rmPadding] using hx
  | cons a rest ih =>
    intro x hx
    cases rest with
    | nil => simpa [rmPadding] using hx
    | cons b rest2 =>
      by_cases hc : a = 0 ∧ b &&& 0x80 = 0
      · rw [show rmPadding (a :: b :: rest2) = rmPadding (b :: rest2) from by
          simp [rmPadding, hc]] at hx
        exact List.mem_cons_of_mem _ (ih hx)
      · rw [show rmPadding (a :: b :: rest2) = a :: b :: rest2 from by
          simp [rmPadding, hc]] at hx
        exact hx

theorem trimS_mem : ∀ {l out : List Nat}, trimS l = some out → ∀ {x}, x ∈ out → x ∈ l := by
  intro l
  induction l with
  | nil => intro out h; simp [trimS] at h
  | cons a rest ih =>
    intro out h x hx
    by_cases ha : a ≠ 0
    · rw [show trimS (a :: rest) = some (a :: rest) from by simp [trimS, ha]] at h
      rw [Option.some_inj] at h
      exact h ▸ hx
    · cases rest with
      | nil =>
        rw [show trimS (a :: ([] : List Nat)) = none from by simp [trimS, ha]] at h
        exact absurd h (by simp)
      | cons b rest2 =>
        by_cases hb : b &&& 0x80 ≠ 0
        · rw [show trimS (a :: b :: rest2) = some (a :: b :: rest2) from by
            simp [trimS, ha, hb]] at h
          rw [Option.some_inj] at h
          exact h ▸ hx
        · rw [show trimS (a :: b :: rest2) = trimS (b :: rest2) from by
            simp [trimS, ha, hb]] at h
          exact List.mem_cons_of_mem _ (ih h hx)

theorem rmPadding_length : ∀ (l : List Nat), (rmPadding l).length ≤ l.length := by
  intro l
  induction l with
  | nil => simp [rmPadding]
  | cons a rest ih =>
    cases rest with
    | nil => simp [rmPadding]
    | cons b rest2 =>
      by_cases hc : a = 0 ∧ b &&& 0x80 = 0
      · rw [show rmPadding (a :: b :: rest2) = rmPadding (b :: rest2) from by
          simp [rmPadding, hc]]
        calc (rmPadding (b :: rest2)).length ≤ (b :: rest2).length := ih
          _ ≤ (a :: b :: rest2).length := by simp
      · rw [show rmPadding (a :: b :: rest2) = a :: b :: rest2 from by
          simp [rmPadding, hc]]

theorem trimS_length : ∀ {l out : List Nat}, trimS l = some out → out.length ≤ l.length := by
  intro l
  induction l with
  | nil => intro out h; simp [trimS] at h
  | cons a rest ih =>
    intro out h
    by_cases ha : a ≠ 0
    · rw [show trimS (a :: rest) = some (a :: rest) from by simp [trimS, ha]] at h
      rw [Option.some_inj] at h
      rw [← h]
    · cases rest with
      | nil =>
        rw [show trimS (a :: ([] : List Nat)) = none from by simp [trimS, ha]] at h
        exact absurd h (by simp)
      | cons b rest2 =>
        by_cases hb : b &&& 0x80 ≠ 0
        · rw [show trimS (a :: b :: rest2) = some (a :: b :: rest2) from by
            simp [trimS, ha, hb]] at h
          rw [Option.some_inj] at h
          rw [← h]
        · rw [show trimS (a :: b :: rest2) = trimS (b :: rest2) from by
            simp [trimS, ha, hb]] at h
          calc out.length ≤ (b :: rest2).length := ih h
            _ ≤ (a :: b :: rest2).length := by simp

theorem padHigh_length (l : List Nat) : (padHigh l).length ≤ l.length + 1 := by
  unfold padHigh
  split <;> simp

theorem rmPadding_nonzero : ∀ {l : List Nat}, (∃ b ∈ l, b ≠ 0) →
    ∃ b ∈ rmPadding l, b ≠ 0 := by
  intro l
  induction l with
  | nil => intro h; simpa using h
  | cons a rest ih =>
    intro h
    cases rest with
    | nil => simpa [rmPadding] using h
    | cons b rest2 =>
      by_cases hc : a = 0 ∧ b &&& 0x80 = 0
      · rw [show rmPadding (a :: b :: rest2) = rmPadding (b :: rest2) from by
          simp [rmPadding, hc]]
        apply ih
        obtain ⟨x, hx, hxn⟩ := h
        rcases List.mem_cons.mp hx with h1 | h1
        · exact absurd (h1 ▸ hc.1) hxn
        · exact ⟨x, h1, hxn⟩
      · rw [show rmPadding (a :: b :: rest2) = a :: b :: rest2 from by
          simp [rmPadding, hc]]
        exact h

theorem padHigh_nonzero {l : List Nat} (h : ∃ b ∈ l, b ≠ 0) :
    ∃ b ∈ padHigh l, b ≠ 0 := by
  obtain ⟨x, hx, hxn⟩ := h
  unfold padHigh
  split
  · exact ⟨x, List.mem_cons_of_mem _ hx, hxn⟩
  · exact ⟨x, hx, hxn⟩

theorem trimS_some_of_nonzero : ∀ {l : List Nat}, (∃ b ∈ l, b ≠ 0) →
    ∃ out, trimS l = some out := by
  intro l
  induction l with
  | nil => intro h; simpa using h
  | cons a rest ih =>
    intro h
    by_cases ha : a ≠ 0
    · exact ⟨a :: rest, by simp [trimS, ha]⟩
    · cases rest with
      | nil =>
        obtain ⟨x, hx, hxn⟩ := h
        rcases List.mem_cons.mp hx with h1 | h1
        · rw [h1] at hxn
          exact absurd (not_not.mp ha).symm (Ne.symm hxn)
        · simp at h1
      | cons b rest2 =>
        by_cases hb : b &&& 0x80 ≠ 0
        · exact ⟨a :: b :: rest2, by simp [trimS, ha, hb]⟩
        · obtain ⟨out, hout⟩ := ih (by
            obtain ⟨x, hx, hxn⟩ := h
            rcases List.mem_cons.mp hx with h1 | h1
            · exact absurd ((not_not.mp ha) ▸ h1) hxn
            · exact ⟨x, h1, hxn⟩)
          exact ⟨out, by rw [show trimS (a :: b :: rest2) = trimS (b :: rest2) from by
            simp [trimS, ha, hb]]; exact hout⟩

theorem map_mod256_id : ∀ (l : List Nat), (∀ b ∈ l, b < 256) → l.map (· % 256) = l := by
  intro l h
  induction l with
  | nil => rfl
  | cons a rest ih =>
    rw [List.map_cons, Nat.mod_eq_of_lt (h a (List.mem_cons_self _ _)),
      ih fun x hx => h x (List.mem_cons_of_mem _ hx)]

/-- With all three lengths in short form, the DER byte string is the
flat `0x30, L, 0x02, |r|, r, 0x02, |s|, s` sequence. -/
theorem toDERbytes_short (r s : List Nat)
    (hrlen : r.length < 0x80) (hslen : s.length < 0x80)
    (htot : 4 + r.length + s.length < 0x80)
    (hr256 : ∀ b ∈ r, b < 256) (hs256 : ∀ b ∈ s, b < 256) :
    toDERbytes r s
      = 0x30 :: (4 + r.length + s.length) :: 0x02 :: r.length
          :: (r ++ 0x02 :: s.length :: s) := by
  have h1 : constructLength [0x02] r.length = [0x02, r.length] := by
    simp [constructLength, hrlen]
  have h2 : constructLength ([0x02, r.length] ++ r ++ [0x02]) s.length
      = [0x02, r.length] ++ r ++ [0x02] ++ [s.length] := by
    simp [constructLength, hslen]
  have hlen : (([0x02, r.length] ++ r ++ [0x02] ++ [s.length]) ++ s).length
      = 4 + r.length + s.length := by
    simp
    omega
  have h3 : constructLength [0x30] ((([0x02, r.length] ++ r ++ [0x02] ++ [s.length]) ++ s).length)
      = [0x30, 4 + r.length + s.length] := by
    rw [hlen]
    simp [constructLength, htot]
  rw [show toDERbytes r s
      = ((constructLength [0x30] ((([0x02, r.length] ++ r ++ [0x02] ++ [s.length]) ++ s).length)
        ++ (([0x02, r.length] ++ r ++ [0x02] ++ [s.length]) ++ s)).map (· % 256)) from by
    rw [toDERbytes, h1, h2]]
  rw [h3]
  rw [map_mod256_id]
  · simp [List.append_assoc]
  · intro b hb
    simp only [List.cons_append, List.nil_append, List.append_assoc, List.mem_cons,
      List.mem_append, List.not_mem_nil, or_false, false_or] at hb
    casesm* _ ∨ _
    all_goals first
      | omega
      | exact hr256 b (by assumption)
      | exact hs256 b (by assumption)

/-- Parsing the short-form DER byte string recovers the two
components. -/
theorem derDecode_short (r s : List Nat)
    (hrlen : r.length < 0x80) (hslen : s.length < 0x80)
    (htot : 4 + r.length + s.length < 0x80) :
    derDecode (0x30 :: (4 + r.length + s.length) :: 0x02 :: r.length
        :: (r ++ 0x02 :: s.length :: s)) = some (r, s) := by
  have hinner : (0x02 :: r.length :: (r ++ 0x02 :: s.length :: s)).length
      = 4 + r.length + s.length := by
    simp
    omega
  have hp1 : parseLen ((4 + r.length + s.length) :: 0x02 :: r.length
      :: (r ++ 0x02 :: s.length :: s))
      = some (4 + r.length + s.length,
          0x02 :: r.length :: (r ++ 0x02 :: s.length :: s)) := by
    simp [parseLen, htot]
  have hpr : parseIntTLV (0x02 :: r.length :: (r ++ 0x02 :: s.length :: s))
      = some (r, 0x02 :: s.length :: s) := by
    simp only [parseIntTLV, parseLen, if_pos hrlen, if_pos rfl]
    rw [List.take_left, List.drop_left]
    simp
  have hps : parseIntTLV (0x02 :: s.length :: s) = some (s, []) := by
    simp only [parseIntTLV, parseLen, if_pos hslen, if_pos rfl]
    rw [List.take_length, List.drop_length]
    simp
  simp only [derDecode, if_true]
  rw [hp1]
  dsimp only
  rw [if_pos hinner, hpr]
  dsimp only
  rw [hps]
  dsimp only
  simp

theorem toDERbytes_lt (r s : List Nat) : ∀ b ∈ toDERbytes r s, b < 256 := by
  intro b hb
  unfold toDERbytes at hb
  obtain ⟨x, _, hx⟩ := List.mem_map.mp hb
  rw [← hx]
  exact Nat.mod_lt x (by norm_num)

/-! ## Concrete fixtures for witnesses and counterexamples -/

/-- A minimal unsigned payment transaction. -/
def txP : Transaction := { rest := [("TransactionType", "Payment")] }

/-- The wallet used by concrete scenarios. -/
def w0 : WalletInfo := ⟨"rClassicAddress", "FakePublicKey"⟩

/-- A prepared single-signature entry, as `sign` would store it for
`txP`. -/
def entry0 : PreparedEntry :=
  ⟨{ txP with SigningPubKey := some "FakePublicKey" }, .ofBool false⟩

/-- A one-entry prepared map. -/
def st0 : PreparedMap := [("t1", entry0)]

/-- The placeholder `sign` returns for id `t1`. -/
def ph0 : Placeholder := ⟨"prepared:t1", "hash:t1"⟩

/-- A terminal custody failure, as `waitForSignature` raises it. -/
def sigFailed0 : SigningError :=
  ⟨"SignatureRequestFailed",
    "Transaction ID fb1 failed with status FAILED, sub status: NONE"⟩

/-- A completed custody response carrying the spec's example
signature components. -/
def custOk0 : CustodyOutcome :=
  .success (some [⟨some ⟨some "1234567890abcdef", some "fedcba0987654321"⟩⟩])

/-- The DER encoding of the spec's example components. -/
def derEx : String := "301502081234567890ABCDEF020900FEDCBA0987654321"

/-! ## Claims -/

/-- C1: For every prepared placeholder, `completeSigning` consumes it
at most once: once a first `getSignedTransaction` call has passed the
prefix check and looked up the placeholder's embedded identifier
(`hlk`), any second call with the same placeholder fails with the
`PlaceholderExpired` error, whatever either call's custody outcome
was. -/
theorem completeSigning_single_use {β : Type} (w : WalletInfo)
    (enc : Transaction → β) (dec : β → Transaction) (hashS : β → String)
    (st : PreparedMap) (ph : Placeholder) (c1out c2out : CustodyOutcome)
    (e : PreparedEntry)
    (hpre : strStartsWith ph.tx_blob "prepared:" = true)
    (hlk : alookup st (strDrop ph.tx_blob 9) = some e) :
    (getSignedTransaction w enc dec hashS
        (getSignedTransaction w enc dec hashS st ph c1out).2 ph c2out).1
      = .throws placeholderExpiredError := by
  rw [getSignedTransaction_state w enc dec hashS st ph c1out e hpre hlk]
  unfold getSignedTransaction
  rw [if_neg (by simp [hpre])]
  dsimp only
  rw [alookup_aerase_self]

/-- Witness for C1: the concrete one-entry map, a first call whose
custody interaction fails, then a second call. -/
theorem completeSigning_single_use_witness :
    strStartsWith ph0.tx_blob "prepared:" = true ∧
    alookup st0 (strDrop ph0.tx_blob 9) = some entry0 ∧
    (@getSignedTransaction Transaction w0 id id (fun _ => "H")
        (@getSignedTransaction Transaction w0 id id (fun _ => "H")
          st0 ph0 (.throwsErr sigFailed0)).2 ph0 custOk0).1
      = .throws placeholderExpiredError :=
  ⟨by decide, by decide,
    completeSigning_single_use w0 id id (fun _ => "H") st0 ph0
      (.throwsErr sigFailed0) custOk0 entry0 (by decide) (by decide)⟩

/-- C2 counterexample: the claim says a `completeSigning` call that
fails *after* the lookup (here: the custody service reports a terminal
failure) leaves the map entry in place for a later retry.  On the
code, the entry is deleted at line 300, before the `try` block: the
first call fails with the custody error, yet the entry is gone and a
retry gets `PlaceholderExpired`. -/
theorem completeSigning_failed_still_consumes :
    (@getSignedTransaction Transaction w0 id id (fun _ => "H")
        st0 ph0 (.throwsErr sigFailed0)).1 = .throws sigFailed0 ∧
    alookup (@getSignedTransaction Transaction w0 id id (fun _ => "H")
        st0 ph0 (.throwsErr sigFailed0)).2 "t1" = none ∧
    (@getSignedTransaction Transaction w0 id id (fun _ => "H")
        (@getSignedTransaction Transaction w0 id id (fun _ => "H")
          st0 ph0 (.throwsErr sigFailed0)).2 ph0 (.throwsErr sigFailed0)).1
      = .throws placeholderExpiredError := by
  refine ⟨rfl, rfl, rfl⟩

/-- C2 (amended): the stored signing-context entry is removed as soon
as a `completeSigning` call has looked it up, whether the rest of the
call succeeds or fails; no later call can find it again. -/
theorem completeSigning_removes_entry_on_lookup {β : Type} (w : WalletInfo)
    (enc : Transaction → β) (dec : β → Transaction) (hashS : β → String)
    (st : PreparedMap) (ph : Placeholder) (custody : CustodyOutcome)
    (e : PreparedEntry)
    (hpre : strStartsWith ph.tx_blob "prepared:" = true)
    (hlk : alookup st (strDrop ph.tx_blob 9) = some e) :
    alookup (getSignedTransaction w enc dec hashS st ph custody).2
      (strDrop ph.tx_blob 9) = none := by
  rw [getSignedTransaction_state w enc dec hashS st ph custody e hpre hlk]
  exact alookup_aerase_self st (strDrop ph.tx_blob 9)

/-- Witness for the amended C2, at a custody outcome that fails after
the lookup. -/
theorem completeSigning_removes_entry_on_lookup_witness :
    strStartsWith ph0.tx_blob "prepared:" = true ∧
    alookup st0 (strDrop ph0.tx_blob 9) = some entry0 ∧
    alookup (@getSignedTransaction Transaction w0 id id (fun _ => "H")
        st0 ph0 (.throwsErr sigFailed0)).2 (strDrop ph0.tx_blob 9) = none :=
  ⟨by decide, by decide,
    completeSigning_removes_entry_on_lookup w0 id id (fun _ => "H") st0 ph0
      (.throwsErr sigFailed0) entry0 (by decide) (by decide)⟩

/-- C6 counterexample: the claim quantifies over *every* transaction
carrying a pre-existing signature field.  A transaction whose
`TxnSignature` field is present but the empty string carries the
field, yet JavaScript truthiness (`transaction.TxnSignature ||
transaction.Signers`) lets it through: `sign` succeeds, returns a
placeholder, and adds an entry to the prepared map. -/
theorem sign_empty_signature_not_rejected :
    ({ txP with TxnSignature := some "" } : Transaction).TxnSignature.isSome = true ∧
    sign w0 [] { txP with TxnSignature := some "" } "FakePublicKey" .missing "t1"
      = (.ok ⟨"prepared:t1", "hash:t1"⟩,
          [("t1",
            ⟨{ txP with SigningPubKey := some "FakePublicKey" }, .ofBool false⟩)]) := by
  refine ⟨rfl, rfl⟩

/-- C6 (amended): for every transaction whose signature field is a
*non-empty* string, or whose signer list is present (even empty),
`sign` fails with the `AlreadySigned` error, adds nothing to the
prepared-transactions map and returns no placeholder.  (A
present-but-empty signature string is falsy in JavaScript and is not
rejected — see the counterexample.) -/
theorem sign_already_signed_rejected (w : WalletInfo) (st : PreparedMap)
    (tx : Transaction) (publicKey : String) (multisign : MsParam) (txId : String)
    (h : txnSignatureTruthy tx = true ∨ signersTruthy tx = true) :
    sign w st tx publicKey multisign txId = (.error alreadySignedError, st) := by
  have hb : (txnSignatureTruthy tx || signersTruthy tx) = true := by
    rcases h with h | h <;> simp [h]
  simp [sign, hb]

/-- Witness for the amended C6: a transaction with a non-empty
signature string is rejected and the map stays empty. -/
theorem sign_already_signed_rejected_witness :
    (txnSignatureTruthy { txP with TxnSignature := some "AA" } = true ∨
      signersTruthy { txP with TxnSignature := some "AA" } = true) ∧
    sign w0 [] { txP with TxnSignature := some "AA" } "FakePublicKey" .missing "t1"
      = (.error alreadySignedError, []) :=
  ⟨Or.inl (by decide),
    sign_already_signed_rejected w0 [] { txP with TxnSignature := some "AA" }
      "FakePublicKey" .missing "t1" (Or.inl (by decide))⟩

/-- C7: the claim says `toDER` always terminates with either an
uppercase hex value or a signing-category error, and that malformed
hex raises such an error.  On the code, `Buffer.from(hex, "hex")`
never throws — it silently truncates at the first invalid pair — so a
malformed `s` component decodes to an empty byte array and the
`while (!s[0] && !(s[1] & 0x80))` loop of lines 163-165 never exits
(`toDER "01" "zz" = none`, the divergence), while a malformed `r`
component is silently accepted and produces a value with no error
(`toDER "zz" "01"`).  The `DEREncodingFailed` branch is unreachable. -/
theorem toDER_diverges_on_malformed_hex :
    toDER "01" "zz" = none ∧
    toDER "01" "00" = none ∧
    toDER "zz" "01" = some "30050200020101" := by
  refine ⟨rfl, rfl, rfl⟩

/-- C10: `sign` never mutates the caller's transaction object.  The
field removals and the `SigningPubKey` assignment of lines 86-93 are
replayed against an explicit object heap (`signHeap`): the spread
copies the object to a fresh reference and every write targets that
fresh reference, so the caller's object is bit-for-bit unchanged after
the call, on the failing path (`AlreadySigned`) as well as the
successful one. -/
theorem sign_does_not_mutate_argument (h : Nat → Transaction)
    (txRef freshRef : Nat) (publicKey : String) (msAddr : MsAddr)
    (hne : freshRef ≠ txRef) :
    ((signHeap h txRef freshRef publicKey msAddr).1) txRef = h txRef := by
  unfold signHeap
  by_cases hv : (txnSignatureTruthy (h txRef) || signersTruthy (h txRef)) = true
  · simp [hv]
  · have hne' : txRef ≠ freshRef := fun heq => hne heq.symm
    simp [hv, updateHeap, hne']

/-- Witness for C10 at a concrete heap holding one transaction with
populated fields. -/
theorem sign_does_not_mutate_argument_witness :
    ((0 : Nat) ≠ 1) ∧
    ((signHeap (fun _ => { txP with SigningPubKey := some "K" }) 1 0
        "FakePublicKey" (.ofBool false)).1) 1
      = { txP with SigningPubKey := some "K" } :=
  ⟨by decide,
    sign_does_not_mutate_argument (fun _ => { txP with SigningPubKey := some "K" })
      1 0 "FakePublicKey" (.ofBool false) (by decide)⟩

/-- C3: starting from the empty pool, after any sequence of acquire,
release, idle-cleanup and capacity-eviction operations, the pool holds
at most `maxPoolSize` entries and at most one entry per vault-account
identifier. -/
theorem pool_capacity_and_uniqueness (cfg : PoolCfg) (ops : List PoolOp) :
    (runPool cfg ops).length ≤ cfg.maxPoolSize ∧
    ∀ k, ((runPool cfg ops).filter fun p => p.1 = k).length ≤ 1 :=
  ⟨(runPool_inv cfg ops).2, fun k =>
    filter_key_length_le_one (runPool_inv cfg ops).1 k⟩

/-- C4: neither janitorial pass touches an in-use entry.  The
capacity eviction selects only a not-in-use entry and that entry's
`lastUsed` is minimal among all not-in-use entries (the
least-recently-released one); every in-use entry survives the
eviction unchanged; and the idle cleanup removes exactly the
not-in-use entries whose idle duration strictly exceeds the
configured timeout, keeping every other entry (in particular every
in-use entry) unchanged. -/
theorem cleanup_eviction_spare_in_use (cfg : PoolCfg) (pool : PoolState) (now : Nat)
    (hnd : (akeys pool).Nodup) :
    (∀ k, findOldestIdle pool now = some k →
      ∃ it, alookup pool k = some it ∧ it.isInUse = false ∧
        ∀ k' it', alookup pool k' = some it' → it'.isInUse = false →
          it.lastUsed ≤ it'.lastUsed) ∧
    (∀ k' it', alookup pool k' = some it' → it'.isInUse = true →
      alookup (removeOldestIdleSdk pool now).2 k' = some it') ∧
    cleanupIdleSdks cfg pool now
      = pool.filter fun p =>
          ¬ (p.2.isInUse = false ∧ now - p.2.lastUsed > cfg.idleTimeoutMs) := by
  refine ⟨fun k hk => findOldestIdle_spec hnd hk, ?_, cleanupIdleSdks_eq_filter cfg pool now hnd⟩
  intro k' it' hlk' hin
  cases hfind : findOldestIdle pool now with
  | none => simpa [removeOldestIdleSdk, hfind] using hlk'
  | some k =>
    obtain ⟨it, hk, hidle, _⟩ := findOldestIdle_spec hnd hfind
    have hne : k' ≠ k := by
      intro heq
      subst heq
      rw [hlk'] at hk
      injection hk with hit
      rw [← hit, hin] at hidle
      exact absurd hidle (by simp)
    simpa [removeOldestIdleSdk, hfind, alookup_aerase_ne pool hne] using hlk'

/-- Witness for C4, on a two-entry pool with one idle and one in-use
entry: eviction picks the idle one, the in-use one survives both
passes, cleanup removes exactly the expired idle entry. -/
theorem cleanup_eviction_spare_in_use_witness :
    (akeys [("a", (⟨5, false⟩ : PoolItem)), ("b", ⟨10, true⟩)]).Nodup ∧
    ((∀ k, findOldestIdle [("a", (⟨5, false⟩ : PoolItem)), ("b", ⟨10, true⟩)] 20 = some k →
      ∃ it, alookup [("a", (⟨5, false⟩ : PoolItem)), ("b", ⟨10, true⟩)] k = some it ∧
        it.isInUse = false ∧
        ∀ k' it', alookup [("a", (⟨5, false⟩ : PoolItem)), ("b", ⟨10, true⟩)] k' = some it' →
          it'.isInUse = false → it.lastUsed ≤ it'.lastUsed) ∧
    (∀ k' it', alookup [("a", (⟨5, false⟩ : PoolItem)), ("b", ⟨10, true⟩)] k' = some it' →
      it'.isInUse = true →
      alookup (removeOldestIdleSdk [("a", (⟨5, false⟩ : PoolItem)), ("b", ⟨10, true⟩)] 20).2 k'
        = some it') ∧
    cleanupIdleSdks ⟨2, 3⟩ [("a", (⟨5, false⟩ : PoolItem)), ("b", ⟨10, true⟩)] 20
      = [("a", (⟨5, false⟩ : PoolItem)), ("b", ⟨10, true⟩)].filter fun p =>
          ¬ (p.2.isInUse = false ∧ 20 - p.2.lastUsed > (3 : Nat))) :=
  ⟨by decide,
    cleanup_eviction_spare_in_use ⟨2, 3⟩
      [("a", (⟨5, false⟩ : PoolItem)), ("b", ⟨10, true⟩)] 20 (by decide)⟩

/-- C5 counterexample: at capacity with no idle entry, `getSdk`
throws the *raw* `Error` of lines 69-72 — not a typed pool error.
The thrown value is the untyped `rawError` variant, distinct from
every typed `validationError`. -/
theorem pool_capacity_error_untyped :
    getSdk ⟨1, 10⟩ [("a", ⟨5, true⟩)] "b" 6 true
      = (.error (.rawError "SDK pool is at maximum capacity (1) with no idle connections"),
          [("a", ⟨5, true⟩)]) ∧
    ∀ code msg, (getSdk ⟨1, 10⟩ [("a", ⟨5, true⟩)] "b" 6 true).1
      ≠ .error (.validationError code msg) := by
  refine ⟨rfl, ?_⟩
  intro code msg h
  rw [show (getSdk ⟨1, 10⟩ [("a", ⟨5, true⟩)] "b" 6 true).1
      = Except.error (PoolThrown.rawError
          "SDK pool is at maximum capacity (1) with no idle connections") from rfl] at h
  injection h with h2
  exact PoolThrown.noConfusion h2

/-- C5 (amended): when `acquire` is called for an account with no
pool entry while the pool is at maximum size and every entry is in
use (so nothing is evictable), the call fails — but by throwing an
untyped `Error` with the capacity message, not a typed
pool/validation error, and the pool is left unchanged. -/
theorem pool_capacity_exceeded_raw (cfg : PoolCfg) (pool : PoolState) (vid : String)
    (now : Nat) (createOk : Bool)
    (hlk : alookup pool vid = none)
    (hcap : pool.length ≥ cfg.maxPoolSize)
    (hall : ∀ p ∈ pool, p.2.isInUse = true) :
    getSdk cfg pool vid now createOk = (.error (.rawError (capacityMsg cfg)), pool) := by
  have hfind := findOldestIdle_none_of_allInUse pool now hall
  simp [getSdk, hlk, hcap, hfind]

/-- Witness for the amended C5. -/
theorem pool_capacity_exceeded_raw_witness :
    alookup [("a", (⟨5, true⟩ : PoolItem))] "b" = none ∧
    [("a", (⟨5, true⟩ : PoolItem))].length ≥ (1 : Nat) ∧
    (∀ p ∈ [("a", (⟨5, true⟩ : PoolItem))], p.2.isInUse = true) ∧
    getSdk ⟨1, 10⟩ [("a", ⟨5, true⟩)] "b" 6 true
      = (.error (.rawError (capacityMsg ⟨1, 10⟩)), [("a", ⟨5, true⟩)]) :=
  ⟨by decide, by decide, by decide,
    pool_capacity_exceeded_raw ⟨1, 10⟩ [("a", ⟨5, true⟩)] "b" 6 true
      (by decide) (by decide) (by decide)⟩

/-- C9: whenever `completeSigning` returns successfully, the returned
`tx_blob` decodes (through any codec faithful on encodings, `hrt`) to
a transaction carrying a signature or signer-list field; if the
stored context's multisign target is set, that transaction is the
stored one extended with a single-entry signer list carrying the
signing account, the wallet's public key and the DER-encoded
signature; otherwise it is the stored transaction with the DER
signature attached to its `TxnSignature` field; and the returned hash
is the signed-transaction hash of the returned `tx_blob`. -/
theorem completeSigning_success_shape {β : Type} (w : WalletInfo)
    (enc : Transaction → β) (dec : β → Transaction) (hashS : β → String)
    (st : PreparedMap) (ph : Placeholder) (custody : CustodyOutcome)
    (out : SignedTxn β) (st' : PreparedMap)
    (hrt : ∀ t, dec (enc t) = t)
    (hrun : getSignedTransaction w enc dec hashS st ph custody = (.returns out, st')) :
    ∃ prepared der,
      alookup st (strDrop ph.tx_blob 9) = some prepared ∧
      (∃ msgs sg, custody = .success msgs ∧ firstSignature msgs = some sg ∧
        toDER (sg.r.getD "") (sg.s.getD "") = some der) ∧
      (txnSignatureTruthy (dec out.tx_blob) = true ∨
        signersTruthy (dec out.tx_blob) = true) ∧
      (if prepared.multisignAddress.truthy = true then
          dec out.tx_blob = { prepared.tx with
            Signers := some [⟨msAccount w prepared.multisignAddress, w.publicKey, der⟩] }
        else dec out.tx_blob = { prepared.tx with TxnSignature := some der }) ∧
      out.hash = hashS out.tx_blob := by
  unfold getSignedTransaction at hrun
  by_cases hpre : strStartsWith ph.tx_blob "prepared:" = true
  · rw [if_neg (by simp [hpre])] at hrun
    dsimp only at hrun
    cases hlk : alookup st (strDrop ph.tx_blob 9) with
    | none => rw [hlk] at hrun; exact absurd hrun (by simp)
    | some prepared =>
      rw [hlk] at hrun
      dsimp only at hrun
      cases custody with
      | throwsRaw m => exact absurd hrun (by simp)
      | throwsErr e => exact absurd hrun (by simp)
      | success msgs =>
        dsimp only at hrun
        cases hfs : firstSignature msgs with
        | none => rw [hfs] at hrun; exact absurd hrun (by simp)
        | some sg =>
          rw [hfs] at hrun
          dsimp only at hrun
          cases hder : toDER (sg.r.getD "") (sg.s.getD "") with
          | none => rw [hder] at hrun; exact absurd hrun (by simp)
          | some der =>
            rw [hder] at hrun
            dsimp only at hrun
            refine ⟨prepared, der, rfl, ⟨msgs, sg, rfl, hfs, hder⟩, ?_⟩
            by_cases hms : prepared.multisignAddress.truthy = true
            · rw [if_pos hms] at hrun
              by_cases hchk : ¬ txnSignatureTruthy (dec (enc { prepared.tx with
                    Signers := some [⟨msAccount w prepared.multisignAddress,
                      w.publicKey, der⟩] })) = true ∧
                  ¬ signersTruthy (dec (enc { prepared.tx with
                    Signers := some [⟨msAccount w prepared.multisignAddress,
                      w.publicKey, der⟩] })) = true
              · rw [if_pos hchk] at hrun; exact absurd hrun (by simp)
              · rw [if_neg hchk] at hrun
                rw [Prod.mk.injEq] at hrun
                obtain ⟨h1, h2⟩ := hrun
                injection h1 with h3
                subst h3
                rcases not_and_or.mp hchk with hh | hh
                all_goals
                  refine ⟨?_, ?_, rfl⟩
                all_goals
                  first
                  | (left; simpa using not_not.mp hh)
                  | (right; simpa using not_not.mp hh)
                  | (rw [if_pos hms]; exact hrt _)
            · rw [if_neg hms] at hrun
              by_cases hchk : ¬ txnSignatureTruthy (dec (enc { prepared.tx with
                    TxnSignature := some der })) = true ∧
                  ¬ signersTruthy (dec (enc { prepared.tx with
                    TxnSignature := some der })) = true
              · rw [if_pos hchk] at hrun; exact absurd hrun (by simp)
              · rw [if_neg hchk] at hrun
                rw [Prod.mk.injEq] at hrun
                obtain ⟨h1, h2⟩ := hrun
                injection h1 with h3
                subst h3
                rcases not_and_or.mp hchk with hh | hh
                all_goals
                  refine ⟨?_, ?_, rfl⟩
                all_goals
                  first
                  | (left; simpa using not_not.mp hh)
                  | (right; simpa using not_not.mp hh)
                  | (rw [if_neg hms]; exact hrt _)
  · rw [if_pos hpre] at hrun
    exact absurd hrun (by simp)

/-- The final signed transaction of the §8 scenario. -/
def finalTx0 : Transaction :=
  { txP with SigningPubKey := some "FakePublicKey", TxnSignature := some derEx }

/-- The `{tx_blob, hash}` record the §8 scenario returns (identity
codec, constant hash collaborator). -/
def out0 : SignedTxn Transaction := ⟨finalTx0, "H"⟩

/-- Witness for C9: the spec's §8 scenario — a prepared single-sig
transaction completed with signature components
`r = "1234567890abcdef"`, `s = "fedcba0987654321"` — run through the
identity codec. -/
theorem completeSigning_success_shape_witness :
    (∀ t : Transaction, id (id t) = t) ∧
    @getSignedTransaction Transaction w0 id id (fun _ => "H") st0 ph0 custOk0
      = (.returns out0, []) ∧
    (∃ prepared der,
      alookup st0 (strDrop ph0.tx_blob 9) = some prepared ∧
      (∃ msgs sg, custOk0 = .success msgs ∧ firstSignature msgs = some sg ∧
        toDER (sg.r.getD "") (sg.s.getD "") = some der) ∧
      (txnSignatureTruthy (id out0.tx_blob) = true ∨
        signersTruthy (id out0.tx_blob) = true) ∧
      (if prepared.multisignAddress.truthy = true then
          id out0.tx_blob = { prepared.tx with
            Signers := some [⟨msAccount w0 prepared.multisignAddress, w0.publicKey, der⟩] }
        else id out0.tx_blob = { prepared.tx with TxnSignature := some der }) ∧
      out0.hash = (fun _ => "H") out0.tx_blob) :=
  ⟨fun _ => rfl, rfl,
    completeSigning_success_shape w0 id id (fun _ => "H") st0 ph0 custOk0
      out0 [] (fun _ => rfl) rfl⟩

/-- C8: for valid (r, s) hex pairs of ordinary signature size (at
most 60 bytes per component — real ECDSA components are at most 33)
whose s component is not all zero bytes (an all-zero s makes the
encoder diverge, see C7), `toDER` is deterministic (a pure function:
the same pair always encodes to the same output) and produces an
encoding that the tag-length-value parser decodes back to exactly the
canonical forms of r and s — the inputs after the encoder's own
sign-bit-padding (`padHigh`) and minimal-length (`rmPadding`, and for
s the extra trim loop) rules. -/
theorem toDER_decode_roundtrip (rHex sHex : String)
    (hrv : validHex rHex = true) (hsv : validHex sHex = true)
    (hrlen : (hexBytesJs rHex).length ≤ 60)
    (hslen : (hexBytesJs sHex).length ≤ 60)
    (hsnz : ∃ b ∈ hexBytesJs sHex, b ≠ 0) :
    ∃ out sC,
      toDER rHex sHex = some out ∧
      toDER rHex sHex = toDER rHex sHex ∧
      canonS (hexBytesJs sHex) = some sC ∧
      derDecode (hexBytesJs out) = some (canonR (hexBytesJs rHex), sC) := by
  obtain ⟨sC, hsC⟩ := trimS_some_of_nonzero
    (rmPadding_nonzero (padHigh_nonzero hsnz))
  have hrC256 : ∀ b ∈ canonR (hexBytesJs rHex), b < 256 := by
    intro b hb
    rcases padHigh_mem (rmPadding_mem hb) with h | h
    · omega
    · exact hexBytesJsAux_lt _ b h
  have hsC256 : ∀ b ∈ sC, b < 256 := by
    intro b hb
    rcases padHigh_mem (rmPadding_mem (trimS_mem hsC hb)) with h | h
    · omega
    · exact hexBytesJsAux_lt _ b h
  have hrCl : (canonR (hexBytesJs rHex)).length < 0x80 := by
    have h1 := rmPadding_length (padHigh (hexBytesJs rHex))
    have h2 := padHigh_length (hexBytesJs rHex)
    unfold canonR
    omega
  have hsCl : sC.length < 0x80 := by
    have h0 := trimS_length hsC
    have h1 := rmPadding_length (padHigh (hexBytesJs sHex))
    have h2 := padHigh_length (hexBytesJs sHex)
    omega
  have htot : 4 + (canonR (hexBytesJs rHex)).length + sC.length < 0x80 := by
    have h1 := rmPadding_length (padHigh (hexBytesJs rHex))
    have h2 := padHigh_length (hexBytesJs rHex)
    have h3 := trimS_length hsC
    have h4 := rmPadding_length (padHigh (hexBytesJs sHex))
    have h5 := padHigh_length (hexBytesJs sHex)
    unfold canonR
    omega
  have htd : toDER rHex sHex
      = some (hexEncodeUpper (toDERbytes (canonR (hexBytesJs rHex)) sC)) := by
    unfold toDER
    dsimp only
    rw [hsC]
    rfl
  refine ⟨hexEncodeUpper (toDERbytes (canonR (hexBytesJs rHex)) sC), sC, htd, rfl, hsC, ?_⟩
  rw [hexBytesJs_hexEncodeUpper _ (toDERbytes_lt _ _)]
  rw [toDERbytes_short _ _ hrCl hsCl htot hrC256 hsC256]
  exact derDecode_short _ _ hrCl hsCl htot

/-- Witness for C8 at the spec's example pair
`r = "1234567890abcdef"`, `s = "fedcba0987654321"`. -/
theorem toDER_decode_roundtrip_witness :
    (validHex "1234567890abcdef" = true ∧ validHex "fedcba0987654321" = true ∧
      (hexBytesJs "1234567890abcdef").length ≤ 60 ∧
      (hexBytesJs "fedcba0987654321").length ≤ 60 ∧
      (∃ b ∈ hexBytesJs "fedcba0987654321", b ≠ 0)) ∧
    (∃ out sC,
      toDER "1234567890abcdef" "fedcba0987654321" = some out ∧
      toDER "1234567890abcdef" "fedcba0987654321"
        = toDER "1234567890abcdef" "fedcba0987654321" ∧
      canonS (hexBytesJs "fedcba0987654321") = some sC ∧
      derDecode (hexBytesJs out)
        = some (canonR (hexBytesJs "1234567890abcdef"), sC)) :=
  ⟨⟨by decide, by decide, by decide, by decide, by decide⟩,
    toDER_decode_roundtrip "1234567890abcdef" "fedcba0987654321"
      (by decide) (by decide) (by decide) (by decide) (by decide)⟩

end XrpSdk
